import Mathlib

namespace Tubely

/-! ## IEEE 754 binary32 arithmetic used by `getVideoAspectRatio` -/

/-- A binary32 value. The finite value `fin neg m L` denotes
`(-1)^neg * m * 2^(L - 149)`; `L = 0` is the subnormal quantum `2^-149`. -/
inductive F32 where
  | nan
  | inf (neg : Bool)
  | fin (neg : Bool) (m : Nat) (L : Nat)
deriving DecidableEq, Repr

/-- Quotient `N / D` rounded to the nearest integer, ties to even. -/
def roundHalfEven (N D : Nat) : Nat :=
  if D < 2 * (N % D) ∨ (2 * (N % D) = D ∧ (N / D) % 2 = 1) then N / D + 1 else N / D

/-- Binary logarithm `⌊log2 n⌋` (`0` for `n < 2`), by halving at most `fuel` times. -/
def ilog2 : Nat → Nat → Nat
  | 0, _ => 0
  | fuel + 1, n => if n < 2 then 0 else ilog2 fuel (n / 2) + 1

/-- Index of the binade of the positive rational `n / d`: `⌊log2 (n/d)⌋ + 126`,
clamped below at `0` (subnormal range). -/
def binade (n d : Nat) : Nat := ilog2 (n * 2 ^ 126 / d) (n * 2 ^ 126 / d)

/-- Round the rational `(-1)^neg * n / d` (`d > 0`) to binary32, nearest-even,
overflowing to infinity at `2^128`. -/
def roundRat (neg : Bool) (n d : Nat) : F32 :=
  if 2 ^ 128 * 2 ^ 149 ≤ roundHalfEven (n * 2 ^ 149) (d * 2 ^ binade n d) * 2 ^ binade n d
  then F32.inf neg
  else F32.fin neg (roundHalfEven (n * 2 ^ 149) (d * 2 ^ binade n d)) (binade n d)

/-- Go conversion `float32(x)` of an `int`. -/
def F32.ofInt (x : Int) : F32 := roundRat (decide (x < 0)) x.natAbs 1

/-- Go conversion of the untyped decimal constant `n / d` to `float32`. -/
def F32.const (n d : Nat) : F32 := roundRat false n d

/-- Binary32 division `a / b`. -/
def F32.div : F32 → F32 → F32
  | .nan, _ => .nan
  | _, .nan => .nan
  | .inf _, .inf _ => .nan
  | .inf s, .fin t _ _ => .inf (xor s t)
  | .fin s _ _, .inf t => .fin (xor s t) 0 0
  | .fin s m L, .fin t k J =>
    if k = 0 then (if m = 0 then .nan else .inf (xor s t))
    else roundRat (xor s t) (m * 2 ^ L) (k * 2 ^ J)

/-- Binary32 comparison `a < b` (false whenever an operand is NaN). -/
def F32.lt : F32 → F32 → Bool
  | .nan, _ => false
  | _, .nan => false
  | .inf s, .inf t => s && !t
  | .inf s, .fin _ _ _ => s
  | .fin _ _ _, .inf t => !t
  | .fin false m L, .fin false k J => decide (m * 2 ^ L < k * 2 ^ J)
  | .fin true m L, .fin true k J => decide (k * 2 ^ J < m * 2 ^ L)
  | .fin true m _, .fin false k _ => decide (0 < m ∨ 0 < k)
  | .fin false _ _, .fin true _ _ => false

/-! ## `getVideoAspectRatio` -/

/-- Go `error` values are represented by their message. -/
abbrev GoError := String

/-- Local type `Stream` of `getVideoAspectRatio`. -/
structure Stream where
  Width : Int
  Height : Int
deriving DecidableEq, Repr

/-- Local type `Aspect` of `getVideoAspectRatio`. -/
structure Aspect where
  Streams : List Stream
deriving DecidableEq, Repr

/-- What running `ffprobe` and unmarshalling its standard output yields. -/
inductive ProbeOutput where
  | runFailed (err : GoError)
  | unmarshalFailed (err : GoError)
  | report (a : Aspect)
deriving DecidableEq, Repr

/-- The classification step of `getVideoAspectRatio` (source lines 185-194) on the first
stream's geometry: `float32(Width) / float32(Height)` against the `float32` constants. -/
def classify (width height : Int) : String :=
  let ratio := F32.div (F32.ofInt width) (F32.ofInt height)
  if F32.lt (F32.const 8 5) ratio && F32.lt ratio (F32.const 19 10) then "landscape"
  else if F32.lt (F32.const 2 5) ratio && F32.lt ratio (F32.const 3 5) then "portrait"
  else "other"

/-- `getVideoAspectRatio`: `ffprobe` is the external probe (command run and JSON
unmarshalling); the result is the Go pair `(string, error)`. -/
def getVideoAspectRatio (ffprobe : String → ProbeOutput) (filePath : String) :
    String × Option GoError :=
  match ffprobe filePath with
  | .runFailed err => ("", some err)
  | .unmarshalFailed err => ("", some err)
  | .report a =>
    match a.Streams with
    | [] => ("", some "Couldn't get the witdth and height")
    | s :: _ => (classify s.Width s.Height, none)

/-! ## `encoding/hex` and the storage key -/

/-- A Go `byte`. -/
abbrev Byte := Fin 256

/-- The digit table of `encoding/hex`. -/
def hextable : List Char := "0123456789abcdef".toList

/-- Go `hextable[i]`. -/
def hexDigit (i : Nat) : Char := hextable.getD i '0'

/-- Characters of `hex.EncodeToString(src)`: two digits per byte, high nibble first. -/
def hexEncode : List Byte → List Char
  | [] => []
  | v :: rest => hexDigit (v.val >>> 4) :: hexDigit (v.val &&& 0x0f) :: hexEncode rest

/-- Go `hex.EncodeToString`. -/
def EncodeToString (src : List Byte) : String := String.mk (hexEncode src)

/-- The storage key built at source line 109 of `handlerUploadVideo`. -/
def fileKey (ratio : String) (randKey : List Byte) : String :=
  ratio ++ "/" ++ EncodeToString randKey ++ ".mp4"

/-! ## Records -/

/-- A `uuid.UUID`: sixteen bytes. -/
structure UUID where
  bytes : List Byte
  size : bytes.length = 16
deriving DecidableEq

/-- Go `UUID.String()`: the canonical `8-4-4-4-12` lowercase hexadecimal form. -/
def uuidString (u : UUID) : String :=
  String.mk (hexEncode (u.bytes.take 4) ++ '-' :: (hexEncode ((u.bytes.drop 4).take 2)
    ++ '-' :: (hexEncode ((u.bytes.drop 6).take 2) ++ '-' :: (hexEncode ((u.bytes.drop 8).take 2)
    ++ '-' :: hexEncode (u.bytes.drop 10)))))

/-- The fields of `database.Video` that the handlers read or write. -/
structure Video where
  ID : UUID
  UserID : UUID
  ThumbnailURL : Option String
  VideoURL : Option String
deriving DecidableEq

/-- Go `video.VideoURL = &url`. -/
def setVideoURL (video : Video) (url : String) : Video := { video with VideoURL := some url }

/-! ## Access URL signing (`db_video_to_signed_video.go`) -/

/-- Go `strings.Contains(s, ",")`. -/
def containsComma (s : String) : Bool := s.toList.contains ','

/-- Prepend a character to the first piece of a split. -/
def consHead (c : Char) : List (List Char) → List (List Char)
  | [] => [[c]]
  | p :: ps => (c :: p) :: ps

/-- Pieces of Go `strings.Split(s, ",")`, as character lists. -/
def splitComma : List Char → List (List Char)
  | [] => [[]]
  | c :: cs => if c = ',' then [] :: splitComma cs else consHead c (splitComma cs)

/-- Go `strings.Split(s, ",")`. -/
def Split (s : String) : List String := (splitComma s.toList).map String.mk

/-- Go `time.Second`, in nanoseconds. -/
def Second : Nat := 1000000000

/-- The presigning service behind `s3.PresignClient.PresignGetObject`: bucket, key and
expiry to the URL of the presigned request, or an error. -/
abbrev Presigner := String → String → Nat → Except GoError String

/-- `generatePresignedURL`. -/
def generatePresignedURL (presignGetObject : Presigner) (bucket key : String)
    (expireTime : Nat) : String × Option GoError :=
  match presignGetObject bucket key expireTime with
  | .error err => ("", some err)
  | .ok url => (url, none)

/-- Outcome of `_dbVideoToSignedVideo`: the returned pair and the presign requests made
(`bucket`, `key`), or a run-time panic on an out-of-range index. -/
inductive SignOutcome where
  | panic
  | ret (video : Video) (err : Option GoError) (requests : List (String × String))
deriving DecidableEq

/-- `_dbVideoToSignedVideo`. -/
def _dbVideoToSignedVideo (presignGetObject : Presigner) (video : Video) : SignOutcome :=
  match video.VideoURL with
  | none => .ret video none []
  | some url =>
    if !containsComma url then .ret video none []
    else
      match (Split url)[0]?, (Split url)[1]? with
      | some bucket, some key =>
        match generatePresignedURL presignGetObject bucket key (100 * Second) with
        | (_, some err) => .ret video (some err) [(bucket, key)]
        | (presignedURL, none) =>
          .ret (setVideoURL video presignedURL) none [(bucket, key)]
      | _, _ => .panic

/-- The claimed notion of a compound locator: exactly one comma, splitting the string into
two non-empty parts. -/
def specCompound (s : String) : Bool :=
  s.toList.count ',' = 1 && s.toList.head? != some ',' && s.toList.getLast? != some ','

/-! ## The upload handler (`handler_upload_video.go`) -/

/-- Observable effects of one request, in program order. -/
inductive Event where
  | getVideo (id : UUID)
  | formFile (name : String)
  | fileClose
  | createTemp (dir pattern : String)
  | tempClose
  | remove (path : String)
  | copy
  | ffprobe (path : String)
  | seek
  | ffmpeg (input output : String)
  | osOpen (path : String)
  | putObject (bucket key contentType : String)
  | updateVideo (video : Video)
  | respondWithError (code : Nat) (msg : String)
  | respondWithJSON (code : Nat) (payload : Video)
deriving DecidableEq

/-- The effect trace and the files present in the temporary directory. -/
structure World where
  trace : List Event
  files : List String
deriving DecidableEq

/-- Append an effect to the trace. -/
def World.log (w : World) (e : Event) : World := { w with trace := w.trace ++ [e] }

/-- A file comes into existence. -/
def World.create (w : World) (path : String) : World := { w with files := w.files ++ [path] }

/-- Go `os.Remove(path)` on an existing, closed file: the file is gone afterwards. -/
def World.remove (w : World) (path : String) : World :=
  { trace := w.trace ++ [Event.remove path], files := w.files.filter (fun f => f != path) }

/-- Files come into existence. -/
def World.spill (w : World) (paths : List String) : World :=
  { w with files := w.files ++ paths }

/-- Outcome of `r.FormFile(name)`. The call parses the multipart body: parts are kept in
memory up to 32 MiB and the remainder is written to `multipart-*` files in `os.TempDir()`.
`spilled` lists the files of that kind present when the call returns; `result` is the
declared Content-Type of the part, or the error. -/
structure FormFileOutcome where
  spilled : List String
  result : Except GoError String

/-- Outcome of the `ffmpeg` run: a non-zero exit may or may not leave an output file; a
zero exit leaves the output file. -/
inductive RemuxOutcome where
  | failed (err : GoError) (outputLeft : Bool)
  | succeeded

/-- The request and the collaborators of `handlerUploadVideo`: the outcome of every
external call the handler makes. -/
structure UploadEnv where
  videoIDString : String
  uuidParse : String → Except GoError UUID
  getBearerToken : Except GoError String
  validateJWT : String → Except GoError UUID
  getVideo : UUID → Except GoError Video
  formFile : String → FormFileOutcome
  parseMediaType : String → Except GoError (String × List (String × String))
  createTemp : String → String → Except GoError String
  copy : Except GoError Unit
  ffprobe : String → ProbeOutput
  seek : Except GoError Unit
  randKey : List Byte
  randKey_size : randKey.length = 32
  ffmpeg : String → String → RemuxOutcome
  osOpen : String → Except GoError Unit
  putObject : String → String → String → Except GoError Unit
  updateVideo : Video → Except GoError Unit
  s3Bucket : String
  s3CfDistribution : String

/-- `processVideoForFastStart`. -/
def processVideoForFastStart (ffmpeg : String → String → RemuxOutcome) (filePath : String)
    (w : World) : (String × Option GoError) × World :=
  let outPath := filePath ++ ".processing"
  match ffmpeg filePath outPath with
  | .failed err outputLeft =>
    (("", some err),
      if outputLeft then (w.log (.ffmpeg filePath outPath)).create outPath
      else w.log (.ffmpeg filePath outPath))
  | .succeeded => ((outPath, none), (w.log (.ffmpeg filePath outPath)).create outPath)

/-- Source lines 136-137: `fmt.Sprintf("https://%s/%s", cfg.s3CfDistribution, fileKey)`. -/
def distributionURL (env : UploadEnv) (ratio : String) : String :=
  "https://" ++ env.s3CfDistribution ++ "/" ++ fileKey ratio env.randKey

/-- Source lines 87-151 of `handlerUploadVideo`: the body that runs while the deferred
`os.Remove(tempFile.Name())` and `tempFile.Close()` are pending. The check at line 139
re-tests the `err` of `os.Open`, which is nil there, so it never fires. -/
def uploadFromTemp (env : UploadEnv) (video : Video) (parsedMediaType tempName : String)
    (w : World) : World :=
  match env.copy with
  | .error _ => (w.log .copy).log (.respondWithError 500 "Couldn't copy the file content")
  | .ok _ =>
  match getVideoAspectRatio env.ffprobe tempName with
  | (_, some _) =>
    ((w.log .copy).log (.ffprobe tempName)).log
      (.respondWithError 500 "Couldn't get the file aspect")
  | (ratio, none) =>
  match env.seek with
  | .error _ =>
    (((w.log .copy).log (.ffprobe tempName)).log .seek).log
      (.respondWithError 500 "Couldn't reset the file pointer")
  | .ok _ =>
  match processVideoForFastStart env.ffmpeg tempName
      (((w.log .copy).log (.ffprobe tempName)).log .seek) with
  | ((_, some _), w1) => w1.log (.respondWithError 500 "Couldn't process the fast start file")
  | ((outPath, none), w1) =>
  match env.osOpen outPath with
  | .error _ =>
    (w1.log (.osOpen outPath)).log (.respondWithError 500 "Couldn't open the processed file")
  | .ok _ =>
  match env.putObject env.s3Bucket (fileKey ratio env.randKey) parsedMediaType with
  | .error _ =>
    ((w1.log (.osOpen outPath)).log
      (.putObject env.s3Bucket (fileKey ratio env.randKey) parsedMediaType)).log
      (.respondWithError 500 "Couldn't put the file object into the s3 client")
  | .ok _ =>
  match env.updateVideo (setVideoURL video (distributionURL env ratio)) with
  | .error _ =>
    (((w1.log (.osOpen outPath)).log
      (.putObject env.s3Bucket (fileKey ratio env.randKey) parsedMediaType)).log
      (.updateVideo (setVideoURL video (distributionURL env ratio)))).log
      (.respondWithError 400 "Could not update the video record")
  | .ok _ =>
    (((w1.log (.osOpen outPath)).log
      (.putObject env.s3Bucket (fileKey ratio env.randKey) parsedMediaType)).log
      (.updateVideo (setVideoURL video (distributionURL env ratio)))).log
      (.respondWithJSON 200 (setVideoURL video (distributionURL env ratio)))

/-- Source lines 66-151 of `handlerUploadVideo`: the body that runs while the deferred
`file.Close()` is pending. The deferred calls of the temporary file run last-in
first-out: `tempFile.Close()`, then `os.Remove(tempFile.Name())`. -/
def uploadFromForm (env : UploadEnv) (video : Video) (mediaType : String) (w : World) :
    World :=
  match env.parseMediaType mediaType with
  | .error _ => w.log (.respondWithError 400 "Couldn't parse the media type")
  | .ok (parsedMediaType, _) =>
  if parsedMediaType != "video/mp4" then w.log (.respondWithError 400 "Invalid file type")
  else
  match env.createTemp "" "tubely-upload.mp4" with
  | .error _ =>
    (w.log (.createTemp "" "tubely-upload.mp4")).log
      (.respondWithError 500 "Couldn't create a temp file")
  | .ok tempName =>
    ((uploadFromTemp env video parsedMediaType tempName
      ((w.log (.createTemp "" "tubely-upload.mp4")).create tempName)).log
      .tempClose).remove tempName

/-- `handlerUploadVideo`. -/
def handlerUploadVideo (env : UploadEnv) (w : World) : World :=
  match env.uuidParse env.videoIDString with
  | .error _ => w.log (.respondWithError 400 "Invalid videoID")
  | .ok videoID =>
  match env.getBearerToken with
  | .error _ => w.log (.respondWithError 400 "Couldn't get the token")
  | .ok token =>
  match env.validateJWT token with
  | .error _ => w.log (.respondWithError 400 "Couldn't validate the token")
  | .ok userID =>
  match env.getVideo videoID with
  | .error _ =>
    (w.log (.getVideo videoID)).log (.respondWithError 401 "Couldn't fetch the video")
  | .ok video =>
  if uuidString userID != uuidString video.UserID then
    (w.log (.getVideo videoID)).log (.respondWithError 401 "Unauthorized user")
  else
  match (env.formFile "video").result with
  | .error _ =>
    (((w.log (.getVideo videoID)).log (.formFile "video")).spill
      (env.formFile "video").spilled).log
      (.respondWithError 400 "Unable to parse the video file")
  | .ok mediaType =>
    (uploadFromForm env video mediaType
      (((w.log (.getVideo videoID)).log (.formFile "video")).spill
        (env.formFile "video").spilled)).log .fileClose

/-- Whether an effect is a failure response. -/
def Event.isFailure : Event → Bool
  | .respondWithError _ _ => true
  | _ => false

/-! ## Sample requests -/

/-- The all-zero identifier. -/
def zeroUUID : UUID := ⟨List.replicate 16 0, by decide⟩

/-- Another identifier. -/
def oneUUID : UUID := ⟨List.replicate 16 1, by decide⟩

/-- A stored record owned by `zeroUUID`, without locators. -/
def sampleVideo : Video := ⟨zeroUUID, zeroUUID, none, none⟩

/-- A request by the owner in which every stage succeeds on a 1920x1080 upload. -/
def sampleEnv : UploadEnv where
  videoIDString := "00000000-0000-0000-0000-000000000000"
  uuidParse := fun _ => .ok zeroUUID
  getBearerToken := .ok "token"
  validateJWT := fun _ => .ok zeroUUID
  getVideo := fun _ => .ok sampleVideo
  formFile := fun _ => ⟨[], .ok "video/mp4; codecs=avc1"⟩
  parseMediaType := fun _ => .ok ("video/mp4", [("codecs", "avc1")])
  createTemp := fun _ _ => .ok "/tmp/tubely-upload.mp4123"
  copy := .ok ()
  ffprobe := fun _ => .report ⟨[⟨1920, 1080⟩]⟩
  seek := .ok ()
  randKey := List.replicate 32 0
  randKey_size := by decide
  ffmpeg := fun _ _ => .succeeded
  osOpen := fun _ => .ok ()
  putObject := fun _ _ _ => .ok ()
  updateVideo := fun _ => .ok ()
  s3Bucket := "tubely-bucket"
  s3CfDistribution := "d111.cloudfront.net"

/-- The same request made by a user who is not the owner. -/
def strangerEnv : UploadEnv := { sampleEnv with validateJWT := fun _ => .ok oneUUID }

/-- The same request declaring `video/avi`. -/
def aviEnv : UploadEnv :=
  { sampleEnv with
    formFile := fun _ => ⟨[], .ok "video/avi"⟩
    parseMediaType := fun _ => .ok ("video/avi", []) }

/-- The `video/avi` request with a part over 32 MiB, which the multipart parser writes to
a file of its own. -/
def largeAviEnv : UploadEnv :=
  { sampleEnv with
    formFile := fun _ => ⟨["/tmp/multipart-2871"], .ok "video/avi"⟩
    parseMediaType := fun _ => .ok ("video/avi", []) }

/-- A 32-byte token with distinct bytes: `17 * i mod 256` for `i = 0, ..., 31`. -/
def sampleToken : List Byte := (List.range 32).map (fun i => Fin.ofNat (17 * i))

/-- The same request on an upload whose probe report lists no stream. -/
def noStreamEnv : UploadEnv := { sampleEnv with ffprobe := fun _ => .report ⟨[]⟩ }

/-- The empty world: nothing traced, no temporary file. -/
def World.empty : World := ⟨[], []⟩

/-! ## Binary32 rounding lemmas -/

/-- Correctness of the halving logarithm. -/
theorem ilog2_spec : ∀ (fuel n : Nat), n ≤ fuel → 0 < n →
    2 ^ ilog2 fuel n ≤ n ∧ n < 2 ^ (ilog2 fuel n + 1) := by
  intro fuel
  induction fuel with
  | zero => intro n h1 h2; omega
  | succ f ih =>
    intro n h1 h2
    unfold ilog2
    by_cases hn : n < 2
    · simp [hn]; omega
    · simp only [hn, if_false]
      have h3 : n / 2 ≤ f := by omega
      have h4 : 0 < n / 2 := by omega
      obtain ⟨a, b⟩ := ih (n / 2) h3 h4
      rw [pow_succ, pow_succ]
      rw [pow_succ] at b
      constructor <;> omega

theorem ilog2_zero (fuel : Nat) : ilog2 fuel 0 = 0 := by
  cases fuel <;> simp [ilog2]

/-- Upper mantissa bound: the scaled numerator stays below `2^24` quanta. -/
theorem binade_upper (n d : Nat) (hd : 0 < d) :
    n * 2 ^ 149 < 2 ^ 24 * (d * 2 ^ binade n d) := by
  unfold binade
  have key : n * 2 ^ 126 < 2 * (d * 2 ^ ilog2 (n * 2 ^ 126 / d) (n * 2 ^ 126 / d)) := by
    rcases Nat.eq_zero_or_pos (n * 2 ^ 126 / d) with h0 | hpos
    · rw [h0, ilog2_zero]
      have := (Nat.div_eq_zero_iff hd).mp h0
      omega
    · have h1 := (ilog2_spec _ _ (le_refl _) hpos).2
      have h2 := (Nat.div_lt_iff_lt_mul hd).mp h1
      generalize ilog2 (n * 2 ^ 126 / d) (n * 2 ^ 126 / d) = L at h2 ⊢
      have e : 2 ^ (L + 1) * d = 2 * (d * 2 ^ L) := by ring
      rw [e] at h2; exact h2
  generalize d * 2 ^ ilog2 (n * 2 ^ 126 / d) (n * 2 ^ 126 / d) = D at key ⊢
  omega

/-- Lower mantissa bound in the normal range. -/
theorem binade_lower (n d : Nat) (hd : 0 < d) (hL : 0 < binade n d) :
    2 ^ 23 * (d * 2 ^ binade n d) ≤ n * 2 ^ 149 := by
  unfold binade at hL ⊢
  have hpos : 0 < n * 2 ^ 126 / d := by
    rcases Nat.eq_zero_or_pos (n * 2 ^ 126 / d) with h0 | hpos
    · rw [h0, ilog2_zero] at hL; omega
    · exact hpos
  have h1 := (ilog2_spec _ _ (le_refl _) hpos).1
  have h2 := (Nat.le_div_iff_mul_le hd).mp h1
  generalize 2 ^ ilog2 (n * 2 ^ 126 / d) (n * 2 ^ 126 / d) = P at h2 ⊢
  have e : d * P = P * d := by ring
  rw [e]
  generalize P * d = D at h2 ⊢
  omega

theorem rhe_cases (N D : Nat) :
    roundHalfEven N D = N / D ∨ roundHalfEven N D = N / D + 1 := by
  unfold roundHalfEven; split <;> simp

theorem rhe_le (N D B : Nat) (h : N < B * D) : roundHalfEven N D ≤ B := by
  have hD : 0 < D := by
    rcases Nat.eq_zero_or_pos D with h0 | h0
    · subst h0; simp at h
    · exact h0
  have : N / D < B := (Nat.div_lt_iff_lt_mul hD).mpr h
  rcases rhe_cases N D with e | e <;> omega

theorem rhe_ge (N D B : Nat) (hD : 0 < D) (h : B * D ≤ N) : B ≤ roundHalfEven N D := by
  have : B ≤ N / D := (Nat.le_div_iff_mul_le hD).mpr h
  rcases rhe_cases N D with e | e <;> omega

/-- Threshold crossing of nearest-even rounding. -/
theorem rhe_succ_le_iff (N D k : Nat) (hD : 0 < D) :
    k + 1 ≤ roundHalfEven N D ↔
      (if k % 2 = 1 then (2 * k + 1) * D ≤ 2 * N else (2 * k + 1) * D < 2 * N) := by
  have hN := Nat.div_add_mod N D
  have hr := Nat.mod_lt N hD
  have e1 : (2 * k + 1) * D = 2 * (D * k) + D := by ring
  rw [e1]
  unfold roundHalfEven
  generalize N / D = q at hN ⊢
  generalize N % D = r at hN hr ⊢
  rcases Nat.lt_trichotomy q k with hlt | heq | hgt
  · have h2 : D * (q + 1) ≤ D * k := Nat.mul_le_mul_left D hlt
    rw [Nat.mul_add] at h2
    generalize D * q = a at hN h2
    generalize D * k = b at h2 ⊢
    split <;> split <;> omega
  · subst heq
    generalize D * q = a at hN ⊢
    split <;> split <;> omega
  · have h2 : D * (k + 1) ≤ D * q := Nat.mul_le_mul_left D hgt
    rw [Nat.mul_add] at h2
    generalize D * q = a at hN h2
    generalize D * k = b at h2 ⊢
    split <;> split <;> omega

/-- The rounded quotient is within half a quantum of the exact one. -/
theorem rhe_err (N D : Nat) (hD : 0 < D) :
    2 * N ≤ 2 * (roundHalfEven N D * D) + D ∧ 2 * (roundHalfEven N D * D) ≤ 2 * N + D := by
  have hN := Nat.div_add_mod N D
  have hr := Nat.mod_lt N hD
  unfold roundHalfEven
  generalize N / D = q at hN ⊢
  generalize N % D = r at hN hr ⊢
  have e : (q + 1) * D = D * q + D := by ring
  have e2 : q * D = D * q := by ring
  split
  · rw [e]; generalize D * q = a at hN ⊢; omega
  · rw [e2]; generalize D * q = a at hN ⊢; omega

theorem two_pow_lt_step {a b : Nat} (h : a < b) : 2 * 2 ^ a ≤ 2 ^ b := by
  have : 2 ^ (a + 1) ≤ 2 ^ b := Nat.pow_le_pow_right (by decide) h
  rw [pow_succ] at this; omega

/-- When does the rounded quotient exceed a normal binary32 constant? -/
theorem const_lt_roundRat (mc Lc n d : Nat) (hd : 0 < d) (h1 : 2 ^ 23 ≤ mc)
    (h2 : mc < 2 ^ 24) (hL : Lc ≤ 252) :
    F32.lt (.fin false mc Lc) (roundRat false n d) = true ↔
      (if mc % 2 = 1 then (2 * mc + 1) * (d * 2 ^ Lc) ≤ 2 * (n * 2 ^ 149)
       else (2 * mc + 1) * (d * 2 ^ Lc) < 2 * (n * 2 ^ 149)) := by
  have hub := binade_upper n d hd
  have hq := rhe_le _ _ _ hub
  have hlow := binade_lower n d hd
  unfold roundRat
  generalize binade n d = L at *
  have hPpos : 0 < 2 ^ L := Nat.two_pow_pos _
  have hPcpos : 0 < 2 ^ Lc := Nat.two_pow_pos _
  have hDpos : 0 < d * 2 ^ L := Nat.mul_pos hd hPpos
  rcases Nat.lt_trichotomy L Lc with hlt | heq | hgt
  · -- lower binade: never above the constant
    have hP := two_pow_lt_step hlt
    have hno : ¬ (2 ^ 128 * 2 ^ 149 ≤ roundHalfEven (n * 2 ^ 149) (d * 2 ^ L) * 2 ^ L) := by
      have hb : 2 ^ L ≤ 2 ^ 252 := Nat.pow_le_pow_right (by decide) (by omega)
      have := Nat.mul_le_mul hq hb
      omega
    rw [if_neg hno]
    simp only [F32.lt, decide_eq_true_eq]
    have a1 : roundHalfEven (n * 2 ^ 149) (d * 2 ^ L) * 2 ^ L ≤ 2 ^ 24 * 2 ^ L :=
      Nat.mul_le_mul_right _ hq
    have a2 : 2 ^ 23 * 2 ^ Lc ≤ mc * 2 ^ Lc := Nat.mul_le_mul_right _ h1
    have a3 : 2 * (d * 2 ^ L) ≤ d * 2 ^ Lc := by
      have := Nat.mul_le_mul_left d hP
      rw [← Nat.mul_assoc, Nat.mul_comm d 2, Nat.mul_assoc] at this; exact this
    have a4 : 2 ^ 24 * (d * 2 ^ Lc) ≤ (2 * mc) * (d * 2 ^ Lc) := Nat.mul_le_mul_right _ (by omega)
    have e : (2 * mc + 1) * (d * 2 ^ Lc) = (2 * mc) * (d * 2 ^ Lc) + d * 2 ^ Lc := by ring
    rw [e]
    generalize roundHalfEven (n * 2 ^ 149) (d * 2 ^ L) * 2 ^ L = X at *
    generalize mc * 2 ^ Lc = Y at *
    generalize (2 * mc) * (d * 2 ^ Lc) = Z at *
    generalize d * 2 ^ Lc = Dc at *
    generalize d * 2 ^ L = D at *
    generalize 2 ^ L = P at *
    generalize 2 ^ Lc = Pc at *
    constructor
    · intro h; omega
    · intro h; split at h <;> omega
  · subst heq
    have hno : ¬ (2 ^ 128 * 2 ^ 149 ≤ roundHalfEven (n * 2 ^ 149) (d * 2 ^ L) * 2 ^ L) := by
      have hb : 2 ^ L ≤ 2 ^ 252 := Nat.pow_le_pow_right (by decide) hL
      have := Nat.mul_le_mul hq hb
      omega
    rw [if_neg hno]
    simp only [F32.lt, decide_eq_true_eq]
    rw [← rhe_succ_le_iff _ _ _ hDpos]
    constructor
    · intro h
      exact Nat.succ_le_of_lt (Nat.lt_of_mul_lt_mul_right h)
    · intro h
      exact Nat.mul_lt_mul_of_pos_right (Nat.lt_of_succ_le h) hPpos
  · -- higher binade: always above the constant
    have hP := two_pow_lt_step hgt
    have hlow2 := hlow (by omega)
    have hq2 := rhe_ge _ _ _ hDpos hlow2
    have a1 : 2 ^ 23 * 2 ^ L ≤ roundHalfEven (n * 2 ^ 149) (d * 2 ^ L) * 2 ^ L :=
      Nat.mul_le_mul_right _ hq2
    have a2 : mc * 2 ^ Lc < 2 ^ 24 * 2 ^ Lc := Nat.mul_lt_mul_of_pos_right h2 hPcpos
    have a3 : 2 * (d * 2 ^ Lc) ≤ d * 2 ^ L := by
      have := Nat.mul_le_mul_left d hP
      rw [← Nat.mul_assoc, Nat.mul_comm d 2, Nat.mul_assoc] at this; exact this
    have a4 : (2 * mc + 1) * (d * 2 ^ Lc) < 2 ^ 25 * (d * 2 ^ Lc) :=
      Nat.mul_lt_mul_of_pos_right (by omega) (Nat.mul_pos hd hPcpos)
    have lhs : F32.lt (.fin false mc Lc)
        (if 2 ^ 128 * 2 ^ 149 ≤ roundHalfEven (n * 2 ^ 149) (d * 2 ^ L) * 2 ^ L then F32.inf false
         else F32.fin false (roundHalfEven (n * 2 ^ 149) (d * 2 ^ L)) L) = true := by
      split
      · simp [F32.lt]
      · simp only [F32.lt, decide_eq_true_eq]
        generalize roundHalfEven (n * 2 ^ 149) (d * 2 ^ L) * 2 ^ L = X at *
        generalize mc * 2 ^ Lc = Y at *
        omega
    rw [lhs]
    simp only [true_iff]
    generalize (2 * mc + 1) * (d * 2 ^ Lc) = Z at *
    generalize d * 2 ^ Lc = Dc at *
    generalize d * 2 ^ L = D at *
    split <;> omega

/-- When does the rounded quotient fall below a normal binary32 constant with mantissa
`k + 1`? -/
theorem roundRat_lt_const (k Lc n d : Nat) (hd : 0 < d) (h1 : 2 ^ 23 ≤ k)
    (h2 : k + 1 < 2 ^ 24) (hL : Lc ≤ 252) :
    F32.lt (roundRat false n d) (.fin false (k + 1) Lc) = true ↔
      (if k % 2 = 1 then 2 * (n * 2 ^ 149) < (2 * k + 1) * (d * 2 ^ Lc)
       else 2 * (n * 2 ^ 149) ≤ (2 * k + 1) * (d * 2 ^ Lc)) := by
  have hub := binade_upper n d hd
  have hq := rhe_le _ _ _ hub
  have hlow := binade_lower n d hd
  unfold roundRat
  generalize binade n d = L at *
  have hPpos : 0 < 2 ^ L := Nat.two_pow_pos _
  have hPcpos : 0 < 2 ^ Lc := Nat.two_pow_pos _
  have hDpos : 0 < d * 2 ^ L := Nat.mul_pos hd hPpos
  have hDcpos : 0 < d * 2 ^ Lc := Nat.mul_pos hd hPcpos
  rcases Nat.lt_trichotomy L Lc with hlt | heq | hgt
  · -- lower binade: always below the constant
    have hP := two_pow_lt_step hlt
    have hno : ¬ (2 ^ 128 * 2 ^ 149 ≤ roundHalfEven (n * 2 ^ 149) (d * 2 ^ L) * 2 ^ L) := by
      have hb : 2 ^ L ≤ 2 ^ 252 := Nat.pow_le_pow_right (by decide) (by omega)
      have := Nat.mul_le_mul hq hb
      omega
    rw [if_neg hno]
    simp only [F32.lt, decide_eq_true_eq]
    have a1 : roundHalfEven (n * 2 ^ 149) (d * 2 ^ L) * 2 ^ L ≤ 2 ^ 24 * 2 ^ L :=
      Nat.mul_le_mul_right _ hq
    have a2 : 2 ^ 23 * 2 ^ Lc < (k + 1) * 2 ^ Lc :=
      Nat.mul_lt_mul_of_pos_right (by omega) hPcpos
    have a3 : 2 * (d * 2 ^ L) ≤ d * 2 ^ Lc := by
      have := Nat.mul_le_mul_left d hP
      rw [← Nat.mul_assoc, Nat.mul_comm d 2, Nat.mul_assoc] at this; exact this
    have a4 : 2 ^ 24 * (d * 2 ^ Lc) < (2 * k + 1) * (d * 2 ^ Lc) :=
      Nat.mul_lt_mul_of_pos_right (by omega) hDcpos
    generalize roundHalfEven (n * 2 ^ 149) (d * 2 ^ L) * 2 ^ L = X at *
    generalize (k + 1) * 2 ^ Lc = Y at *
    generalize (2 * k + 1) * (d * 2 ^ Lc) = Z at *
    generalize d * 2 ^ Lc = Dc at *
    generalize d * 2 ^ L = D at *
    generalize 2 ^ L = P at *
    generalize 2 ^ Lc = Pc at *
    constructor
    · intro _; split <;> omega
    · intro _; omega
  · subst heq
    have hno : ¬ (2 ^ 128 * 2 ^ 149 ≤ roundHalfEven (n * 2 ^ 149) (d * 2 ^ L) * 2 ^ L) := by
      have hb : 2 ^ L ≤ 2 ^ 252 := Nat.pow_le_pow_right (by decide) hL
      have := Nat.mul_le_mul hq hb
      omega
    rw [if_neg hno]
    simp only [F32.lt, decide_eq_true_eq]
    have key := rhe_succ_le_iff (n * 2 ^ 149) (d * 2 ^ L) k hDpos
    have step : roundHalfEven (n * 2 ^ 149) (d * 2 ^ L) * 2 ^ L < (k + 1) * 2 ^ L ↔
        ¬ (k + 1 ≤ roundHalfEven (n * 2 ^ 149) (d * 2 ^ L)) := by
      constructor
      · intro h; exact Nat.not_le_of_lt (Nat.lt_of_mul_lt_mul_right h)
      · intro h; exact Nat.mul_lt_mul_of_pos_right (Nat.lt_of_not_le h) hPpos
    rw [step, key]
    split <;> omega
  · -- higher binade: never below the constant
    have hP := two_pow_lt_step hgt
    have hlow2 := hlow (by omega)
    have hq2 := rhe_ge _ _ _ hDpos hlow2
    have a1 : 2 ^ 23 * 2 ^ L ≤ roundHalfEven (n * 2 ^ 149) (d * 2 ^ L) * 2 ^ L :=
      Nat.mul_le_mul_right _ hq2
    have a2 : (k + 1) * 2 ^ Lc < 2 ^ 24 * 2 ^ Lc := Nat.mul_lt_mul_of_pos_right h2 hPcpos
    have a3 : 2 * (d * 2 ^ Lc) ≤ d * 2 ^ L := by
      have := Nat.mul_le_mul_left d hP
      rw [← Nat.mul_assoc, Nat.mul_comm d 2, Nat.mul_assoc] at this; exact this
    have a4 : (2 * k + 1) * (d * 2 ^ Lc) < 2 ^ 25 * (d * 2 ^ Lc) :=
      Nat.mul_lt_mul_of_pos_right (by omega) hDcpos
    have lhs : F32.lt
        (if 2 ^ 128 * 2 ^ 149 ≤ roundHalfEven (n * 2 ^ 149) (d * 2 ^ L) * 2 ^ L then F32.inf false
         else F32.fin false (roundHalfEven (n * 2 ^ 149) (d * 2 ^ L)) L)
        (.fin false (k + 1) Lc) = false := by
      split
      · simp [F32.lt]
      · simp only [F32.lt, decide_eq_false_iff_not]
        generalize roundHalfEven (n * 2 ^ 149) (d * 2 ^ L) * 2 ^ L = X at *
        generalize (k + 1) * 2 ^ Lc = Y at *
        omega
    rw [lhs]
    simp only [Bool.false_eq_true, false_iff]
    generalize (2 * k + 1) * (d * 2 ^ Lc) = Z at *
    generalize d * 2 ^ Lc = Dc at *
    generalize d * 2 ^ L = D at *
    split <;> omega

set_option maxRecDepth 100000 in
theorem const_8_5 : F32.const 8 5 = .fin false 13421773 126 := by decide
set_option maxRecDepth 100000 in
theorem const_19_10 : F32.const 19 10 = .fin false 15938355 126 := by decide
set_option maxRecDepth 100000 in
theorem const_2_5 : F32.const 2 5 = .fin false 13421773 124 := by decide
set_option maxRecDepth 100000 in
theorem const_3_5 : F32.const 3 5 = .fin false 10066330 125 := by decide

theorem roundRat_sign (s : Bool) (n d : Nat) :
    roundRat s n d = .inf s ∨ ∃ m L, roundRat s n d = .fin s m L := by
  unfold roundRat
  split
  · exact Or.inl rfl
  · exact Or.inr ⟨_, _, rfl⟩

theorem rhe_exact (N D : Nat) (hD : 0 < D) (h : D ∣ N) : roundHalfEven N D * D = N := by
  have hm : N % D = 0 := Nat.mod_eq_zero_of_dvd h
  unfold roundHalfEven
  rw [hm]
  have : ¬ (D < 2 * 0 ∨ 2 * 0 = D ∧ N / D % 2 = 1) := by omega
  rw [if_neg this]
  exact Nat.div_mul_cancel h

set_option maxRecDepth 100000 in
/-- Conversion of a non-negative 64-bit integer: finite, within relative error `2^-24`,
and exact below `2^24`. -/
theorem roundRat_int (n : Nat) (hb : n < 2 ^ 64) :
    ∃ m L, roundRat false n 1 = .fin false m L ∧ (0 < n → 0 < m) ∧
      n * (2 ^ 149 - 2 ^ 125) ≤ m * 2 ^ L ∧ m * 2 ^ L ≤ n * (2 ^ 149 + 2 ^ 125) ∧
      (n < 2 ^ 24 → m * 2 ^ L = n * 2 ^ 149) := by
  rcases Nat.eq_zero_or_pos n with h0 | hn
  · subst h0
    exact ⟨0, 0, by decide, by simp, by simp, by simp, by simp⟩
  have ht : 0 < n * 2 ^ 126 / 1 := by simp; exact hn
  have hspec := ilog2_spec _ _ (le_refl _) ht
  have hLpos : 0 < binade n 1 := by
    unfold binade
    by_contra hc
    have hz : ilog2 (n * 2 ^ 126 / 1) (n * 2 ^ 126 / 1) = 0 := by omega
    rw [hz] at hspec
    simp at hspec
    omega
  have hlow := binade_lower n 1 (by decide) hLpos
  have hub := binade_upper n 1 (by decide)
  have hPpos : 0 < 2 ^ binade n 1 := Nat.two_pow_pos _
  have herr := rhe_err (n * 2 ^ 149) (1 * 2 ^ binade n 1) (by omega)
  have hq := rhe_ge _ _ _ (by omega) hlow
  have hex : n < 2 ^ 24 → roundHalfEven (n * 2 ^ 149) (1 * 2 ^ binade n 1) * 2 ^ binade n 1
      = n * 2 ^ 149 := by
    intro hsmall
    have hL : binade n 1 ≤ 149 := by
      by_contra hc
      have : 2 ^ 150 ≤ 2 ^ binade n 1 := Nat.pow_le_pow_right (by decide) (by omega)
      omega
    have hdvd : 1 * 2 ^ binade n 1 ∣ n * 2 ^ 149 := by
      rw [Nat.one_mul]
      exact Dvd.dvd.mul_left (Nat.pow_dvd_pow 2 hL) n
    have := rhe_exact _ _ (by omega) hdvd
    rw [Nat.one_mul] at this ⊢
    exact this
  refine ⟨roundHalfEven (n * 2 ^ 149) (1 * 2 ^ binade n 1), binade n 1, ?_, ?_, ?_, ?_, hex⟩
  · unfold roundRat
    rw [if_neg]
    rw [Nat.one_mul] at herr ⊢
    generalize roundHalfEven (n * 2 ^ 149) (2 ^ binade n 1) * 2 ^ binade n 1 = X at *
    omega
  · intro _; omega
  · rw [Nat.one_mul] at herr hlow ⊢
    generalize roundHalfEven (n * 2 ^ 149) (2 ^ binade n 1) * 2 ^ binade n 1 = X at *
    omega
  · rw [Nat.one_mul] at herr hlow ⊢
    generalize roundHalfEven (n * 2 ^ 149) (2 ^ binade n 1) * 2 ^ binade n 1 = X at *
    omega

theorem ofInt_natCast (n : Nat) : F32.ofInt (n : Int) = roundRat false n 1 := by
  unfold F32.ofInt
  have : ¬ ((n : Int) < 0) := by omega
  simp [this]

/-- The classifier on non-negative 64-bit geometry, in terms of the rounded operands
`Vw = float32(w) * 2^149` and `Vh = float32(h) * 2^149`. -/
theorem classify_natCast (w h : Nat) (hh : 0 < h) (hw64 : w < 2 ^ 63) (hh64 : h < 2 ^ 63) :
    ∃ Vw Vh : Nat,
      w * (2 ^ 149 - 2 ^ 125) ≤ Vw ∧ Vw ≤ w * (2 ^ 149 + 2 ^ 125) ∧
      (w < 2 ^ 24 → Vw = w * 2 ^ 149) ∧
      h * (2 ^ 149 - 2 ^ 125) ≤ Vh ∧ Vh ≤ h * (2 ^ 149 + 2 ^ 125) ∧
      (h < 2 ^ 24 → Vh = h * 2 ^ 149) ∧
      classify (w : Int) (h : Int) =
        (if 26843547 * Vh ≤ 2 ^ 24 * Vw ∧ 2 ^ 24 * Vw ≤ 31876709 * Vh then "landscape"
         else if 26843547 * Vh ≤ 2 ^ 26 * Vw ∧ 2 ^ 25 * Vw < 20132659 * Vh then "portrait"
         else "other") := by
  obtain ⟨mw, Lw, ew, _, bw1, bw2, bw3⟩ := roundRat_int w (by omega)
  obtain ⟨mh, Lh, eh, hmh, bh1, bh2, bh3⟩ := roundRat_int h (by omega)
  have hmh' : mh ≠ 0 := by have := hmh hh; omega
  have hVh : 0 < mh * 2 ^ Lh := Nat.mul_pos (hmh hh) (Nat.two_pow_pos _)
  refine ⟨mw * 2 ^ Lw, mh * 2 ^ Lh, bw1, bw2, bw3, bh1, bh2, bh3, ?_⟩
  have g16 := const_lt_roundRat 13421773 126 (mw * 2 ^ Lw) (mh * 2 ^ Lh) hVh
    (by decide) (by decide) (by decide)
  have g19 := roundRat_lt_const 15938354 126 (mw * 2 ^ Lw) (mh * 2 ^ Lh) hVh
    (by decide) (by decide) (by decide)
  have g04 := const_lt_roundRat 13421773 124 (mw * 2 ^ Lw) (mh * 2 ^ Lh) hVh
    (by decide) (by decide) (by decide)
  have g06 := roundRat_lt_const 10066329 125 (mw * 2 ^ Lw) (mh * 2 ^ Lh) hVh
    (by decide) (by decide) (by decide)
  unfold classify
  rw [ofInt_natCast, ofInt_natCast, ew, eh, const_8_5, const_19_10, const_2_5, const_3_5]
  have hdiv : F32.div (.fin false mw Lw) (.fin false mh Lh)
      = roundRat false (mw * 2 ^ Lw) (mh * 2 ^ Lh) := by
    simp [F32.div, hmh']
  rw [hdiv]
  have g19' : F32.lt (roundRat false (mw * 2 ^ Lw) (mh * 2 ^ Lh)) (.fin false 15938355 126)
      = true ↔ _ := g19
  have g06' : F32.lt (roundRat false (mw * 2 ^ Lw) (mh * 2 ^ Lh)) (.fin false 10066330 125)
      = true ↔ _ := g06
  simp only [Bool.and_eq_true, g16, g19', g04, g06']
  generalize mw * 2 ^ Lw = Vw
  generalize mh * 2 ^ Lh = Vh
  norm_num
  split_ifs <;> first | rfl | omega

set_option maxRecDepth 100000 in
theorem ofInt_zero : F32.ofInt 0 = .fin false 0 0 := by decide

theorem ofInt_sign (x : Int) :
    F32.ofInt x = .inf (decide (x < 0)) ∨ ∃ m L, F32.ofInt x = .fin (decide (x < 0)) m L :=
  roundRat_sign _ _ _

theorem lt_neg_right (c r : F32) (hc : ∃ m L, c = .fin false m L)
    (hr : r = .inf true ∨ ∃ m L, r = .fin true m L) : F32.lt c r = false := by
  obtain ⟨m, L, rfl⟩ := hc
  rcases hr with rfl | ⟨k, J, rfl⟩ <;> simp [F32.lt]

/-- A negative width over a positive height never classifies as landscape or portrait. -/
theorem classify_neg (w h : Int) (hw : w < 0) (hh : 0 < h) (hh64 : h < 2 ^ 63) :
    classify w h = "other" := by
  obtain ⟨k, rfl⟩ := Int.eq_ofNat_of_zero_le (le_of_lt hh)
  obtain ⟨mh, Lh, eh, hmh, -⟩ := roundRat_int k (by omega)
  have hmh' : mh ≠ 0 := by have := hmh (by omega); omega
  have hr : F32.div (F32.ofInt w) (F32.ofInt (k : Int)) = .inf true ∨
      ∃ m L, F32.div (F32.ofInt w) (F32.ofInt (k : Int)) = .fin true m L := by
    rw [ofInt_natCast, eh]
    rcases ofInt_sign w with e | ⟨m, L, e⟩
    · rw [e]; simp [F32.div, hw]
    · rw [e]
      simp only [F32.div, hmh', if_false, hw, decide_True, Bool.xor_false]
      exact roundRat_sign _ _ _
  unfold classify
  rw [const_8_5, const_2_5]
  simp only [lt_neg_right _ _ ⟨_, _, rfl⟩ hr]
  simp

/-- A zero height makes the quotient infinite or NaN, which no comparison pair accepts. -/
theorem classify_zero_height (w : Int) : classify w 0 = "other" := by
  have hr : F32.div (F32.ofInt w) (F32.ofInt 0) = .nan ∨
      ∃ s, F32.div (F32.ofInt w) (F32.ofInt 0) = .inf s := by
    rw [ofInt_zero]
    rcases ofInt_sign w with e | ⟨m, L, e⟩
    · rw [e]; exact Or.inr ⟨xor (decide (w < 0)) false, by simp [F32.div]⟩
    · rw [e]
      by_cases hm : m = 0
      · exact Or.inl (by simp [F32.div, hm])
      · exact Or.inr ⟨xor (decide (w < 0)) false, by simp [F32.div, hm]⟩
  unfold classify
  rw [const_8_5, const_19_10, const_2_5, const_3_5]
  rcases hr with e | ⟨s, e⟩
  · rw [e]; simp [F32.lt]
  · rw [e]; cases s <;> simp [F32.lt]

/-- Exact characterisation on geometry that binary32 represents exactly. -/
theorem classify_exact (w h : Int) (hh : 0 < h) (hh24 : h < 2 ^ 24) (hw24 : w < 2 ^ 24) :
    classify w h =
      (if 26843547 * h ≤ 2 ^ 24 * w ∧ 2 ^ 24 * w ≤ 31876709 * h then "landscape"
       else if 26843547 * h ≤ 2 ^ 26 * w ∧ 2 ^ 25 * w < 20132659 * h then "portrait"
       else "other") := by
  rcases lt_or_le w 0 with hneg | hpos
  · rw [classify_neg w h hneg hh (by omega)]
    rw [if_neg (by omega), if_neg (by omega)]
  · obtain ⟨k, rfl⟩ := Int.eq_ofNat_of_zero_le (le_of_lt hh)
    obtain ⟨n, rfl⟩ := Int.eq_ofNat_of_zero_le hpos
    obtain ⟨Vw, Vh, -, -, ew, -, -, eh, hc⟩ := classify_natCast n k (by omega) (by omega) (by omega)
    rw [hc, ew (by omega), eh (by omega)]
    norm_num
    split_ifs <;> first | rfl | omega

/-! ## Aspect classification: claims C1, C7, C10 -/

theorem getVideoAspectRatio_report (ffprobe : String → ProbeOutput) (filePath : String)
    (w h : Int) (rest : List Stream) (hp : ffprobe filePath = .report ⟨⟨w, h⟩ :: rest⟩) :
    getVideoAspectRatio ffprobe filePath = (classify w h, none) := by
  simp [getVideoAspectRatio, hp]

theorem classify_cases (w h : Int) :
    classify w h = "landscape" ∨ classify w h = "portrait" ∨ classify w h = "other" := by
  unfold classify
  simp only []
  split_ifs <;> simp

set_option maxRecDepth 100000 in
/-- C1 (amended): for a first stream of width `w` and height `h > 0` the classification is
exactly one of the three classes; when both are below `2^24`, so that `float32` holds them
exactly, it is landscape exactly when `26843547/2^24 ≤ w/h ≤ 31876709/2^24`, portrait
exactly when `26843547/2^26 ≤ w/h < 20132659/2^25`, and other otherwise; landscape and
portrait then imply the open real intervals `(1.6, 1.9)` and `(0.4, 0.6)`; and 1920x1080,
1080x1920, 1000x1000 give landscape, portrait, other. -/
theorem getVideoAspectRatio_classification (ffprobe : String → ProbeOutput)
    (filePath : String) (w h : Int) (rest : List Stream)
    (hp : ffprobe filePath = .report ⟨⟨w, h⟩ :: rest⟩) (hh : 0 < h) :
    (getVideoAspectRatio ffprobe filePath = ("landscape", none) ∨
      getVideoAspectRatio ffprobe filePath = ("portrait", none) ∨
      getVideoAspectRatio ffprobe filePath = ("other", none)) ∧
    (h < 2 ^ 24 → w < 2 ^ 24 →
      (getVideoAspectRatio ffprobe filePath = ("landscape", none) ↔
        26843547 * h ≤ 2 ^ 24 * w ∧ 2 ^ 24 * w ≤ 31876709 * h) ∧
      (getVideoAspectRatio ffprobe filePath = ("portrait", none) ↔
        26843547 * h ≤ 2 ^ 26 * w ∧ 2 ^ 25 * w < 20132659 * h) ∧
      (getVideoAspectRatio ffprobe filePath = ("other", none) ↔
        ¬ (26843547 * h ≤ 2 ^ 24 * w ∧ 2 ^ 24 * w ≤ 31876709 * h) ∧
        ¬ (26843547 * h ≤ 2 ^ 26 * w ∧ 2 ^ 25 * w < 20132659 * h)) ∧
      (getVideoAspectRatio ffprobe filePath = ("landscape", none) →
        (8 : ℚ) / 5 < (w : ℚ) / h ∧ (w : ℚ) / h < 19 / 10) ∧
      (getVideoAspectRatio ffprobe filePath = ("portrait", none) →
        (2 : ℚ) / 5 < (w : ℚ) / h ∧ (w : ℚ) / h < 3 / 5)) ∧
    classify 1920 1080 = "landscape" ∧ classify 1080 1920 = "portrait" ∧
    classify 1000 1000 = "other" := by
  rw [getVideoAspectRatio_report ffprobe filePath w h rest hp]
  refine ⟨?_, ?_, by decide, by decide, by decide⟩
  · rcases classify_cases w h with e | e | e <;> simp [e]
  · intro h24 w24
    have hc := classify_exact w h hh h24 w24
    have hq : (0 : ℚ) < (h : ℚ) := by exact_mod_cast hh
    have key : ∀ a b : Int, 0 < b → (a * h < b * w ↔ (a : ℚ) / b < (w : ℚ) / h) := by
      intro a b hb
      have hbq : (0 : ℚ) < (b : ℚ) := by exact_mod_cast hb
      rw [div_lt_div_iff₀ hbq hq]
      constructor
      · intro hlt; have : ((a * h : Int) : ℚ) < ((b * w : Int) : ℚ) := by exact_mod_cast hlt
        push_cast at this; linarith
      · intro hlt; have : ((a * h : Int) : ℚ) < ((b * w : Int) : ℚ) := by
          push_cast; linarith
        exact_mod_cast this
    have key2 : ∀ a b : Int, 0 < b → (b * w < a * h ↔ (w : ℚ) / h < (a : ℚ) / b) := by
      intro a b hb
      have hbq : (0 : ℚ) < (b : ℚ) := by exact_mod_cast hb
      rw [div_lt_div_iff₀ hq hbq]
      constructor
      · intro hlt; have : ((b * w : Int) : ℚ) < ((a * h : Int) : ℚ) := by exact_mod_cast hlt
        push_cast at this; linarith
      · intro hlt; have : ((b * w : Int) : ℚ) < ((a * h : Int) : ℚ) := by
          push_cast; linarith
        exact_mod_cast this
    have k1 := key 8 5 (by decide)
    have k2 := key2 19 10 (by decide)
    have k3 := key 2 5 (by decide)
    have k4 := key2 3 5 (by decide)
    norm_num at k1 k2 k3 k4
    rw [← k1, ← k2, ← k3, ← k4]
    simp only [Prod.mk.injEq, and_true]
    rw [hc]
    split_ifs with c1 c2
    · simp; omega
    · simp; omega
    · simp; omega

set_option maxRecDepth 100000 in
/-- Instance of C1 at 1920x1080. -/
theorem getVideoAspectRatio_classification_witness :
    (0 : Int) < 1080 ∧
    getVideoAspectRatio (fun _ => .report ⟨[⟨1920, 1080⟩]⟩) "upload.mp4" = ("landscape", none) := by
  refine ⟨by decide, ?_⟩
  have h := getVideoAspectRatio_classification (fun _ => .report ⟨[⟨1920, 1080⟩]⟩) "upload.mp4"
    1920 1080 [] rfl (by decide)
  exact (h.2.1 (by decide) (by decide)).1.mpr (by decide)

set_option maxRecDepth 100000 in
/-- C1 as stated fails: 8000005/5000003 lies strictly between 1.6 and 1.9 as a real
quotient, yet the code answers "other". -/
theorem getVideoAspectRatio_classification_counterexample :
    (1.6 : ℚ) < (8000005 : ℚ) / 5000003 ∧ (8000005 : ℚ) / 5000003 < 1.9 ∧
    (0 : Int) < 5000003 ∧
    getVideoAspectRatio (fun _ => .report ⟨[⟨8000005, 5000003⟩]⟩) "upload.mp4"
      = ("other", none) := by
  refine ⟨by norm_num, by norm_num, by decide, by decide⟩

/-- C7: when the first stream has height 0 the function returns "other" without error,
whatever the width: the binary32 quotient is an infinity or NaN, so neither comparison
pair holds, and no fault is raised. -/
theorem getVideoAspectRatio_zero_height (ffprobe : String → ProbeOutput) (filePath : String)
    (w : Int) (rest : List Stream) (hp : ffprobe filePath = .report ⟨⟨w, 0⟩ :: rest⟩) :
    getVideoAspectRatio ffprobe filePath = ("other", none) ∧
    getVideoAspectRatio ffprobe filePath ≠ ("landscape", none) ∧
    getVideoAspectRatio ffprobe filePath ≠ ("portrait", none) := by
  rw [getVideoAspectRatio_report ffprobe filePath w 0 rest hp, classify_zero_height]
  simp

set_option maxRecDepth 100000 in
/-- Instance of C7 at width 1920, height 0. -/
theorem getVideoAspectRatio_zero_height_witness :
    getVideoAspectRatio (fun _ => .report ⟨[⟨1920, 0⟩]⟩) "upload.mp4" = ("other", none) :=
  (getVideoAspectRatio_zero_height (fun _ => .report ⟨[⟨1920, 0⟩]⟩) "upload.mp4" 1920 [] rfl).1

/-- C10 (amended): for 64-bit geometry with height `h > 0`, exact quotients 1.61 and 1.89
always classify as landscape; exact quotients 1.6, 1.9, 0.4 and 0.6 classify as other
whenever width and height are below `2^24` (exactly representable in `float32`). -/
theorem getVideoAspectRatio_boundaries (ffprobe : String → ProbeOutput) (filePath : String)
    (w h : Int) (rest : List Stream) (hp : ffprobe filePath = .report ⟨⟨w, h⟩ :: rest⟩)
    (hh : 0 < h) (hw63 : w < 2 ^ 63) (hh63 : h < 2 ^ 63) :
    ((5 * w = 8 * h ∨ 10 * w = 19 * h ∨ 5 * w = 2 * h ∨ 5 * w = 3 * h) →
      h < 2 ^ 24 → w < 2 ^ 24 → getVideoAspectRatio ffprobe filePath = ("other", none)) ∧
    ((100 * w = 161 * h ∨ 100 * w = 189 * h) →
      getVideoAspectRatio ffprobe filePath = ("landscape", none)) := by
  rw [getVideoAspectRatio_report ffprobe filePath w h rest hp]
  constructor
  · intro hq h24 w24
    rw [classify_exact w h hh h24 w24]
    rw [if_neg (by omega), if_neg (by omega)]
  · intro hq
    have hwpos : 0 ≤ w := by omega
    obtain ⟨k, rfl⟩ := Int.eq_ofNat_of_zero_le (le_of_lt hh)
    obtain ⟨n, rfl⟩ := Int.eq_ofNat_of_zero_le hwpos
    obtain ⟨Vw, Vh, a1, a2, -, b1, b2, -, hc⟩ :=
      classify_natCast n k (by omega) (by omega) (by omega)
    rw [hc]
    norm_num at a1 a2 b1 b2
    rw [if_pos (by omega)]

set_option maxRecDepth 100000 in
/-- Instance of C10 at 161/100 and 8/5. -/
theorem getVideoAspectRatio_boundaries_witness :
    getVideoAspectRatio (fun _ => .report ⟨[⟨161, 100⟩]⟩) "upload.mp4" = ("landscape", none) :=
  (getVideoAspectRatio_boundaries (fun _ => .report ⟨[⟨161, 100⟩]⟩) "upload.mp4" 161 100 [] rfl
    (by decide) (by decide) (by decide)).2 (Or.inl (by decide))

set_option maxRecDepth 100000 in
/-- C10 as stated fails: 26843560/16777225 is exactly 1.6, yet both operands round on
conversion to `float32` and the code answers "landscape". -/
theorem getVideoAspectRatio_boundaries_counterexample :
    (5 : Int) * 26843560 = 8 * 16777225 ∧ (0 : Int) < 16777225 ∧
    getVideoAspectRatio (fun _ => .report ⟨[⟨26843560, 16777225⟩]⟩) "upload.mp4"
      = ("landscape", none) := by
  refine ⟨by decide, by decide, by decide⟩

/-! ## Hexadecimal encoding and the storage key: claim C9 -/

theorem hexDigit_mem : ∀ i, i < 16 → hexDigit i ∈ hextable := by decide

theorem hi_nibble_lt (v : Byte) : v.val >>> 4 < 16 := by
  rw [Nat.shiftRight_eq_div_pow]
  have := v.isLt
  omega

theorem lo_nibble_lt (v : Byte) : v.val &&& 0x0f < 16 := by
  have : v.val &&& 0x0f ≤ 0x0f := Nat.and_le_right
  omega

theorem hexEncode_length (src : List Byte) : (hexEncode src).length = 2 * src.length := by
  induction src with
  | nil => rfl
  | cons v rest ih => simp [hexEncode, ih]; omega

theorem hexEncode_mem (src : List Byte) : ∀ ch ∈ hexEncode src, ch ∈ hextable := by
  induction src with
  | nil => intro ch h; simp [hexEncode] at h
  | cons v rest ih =>
    intro ch h
    simp only [hexEncode, List.mem_cons] at h
    rcases h with rfl | rfl | h
    · exact hexDigit_mem _ (hi_nibble_lt v)
    · exact hexDigit_mem _ (lo_nibble_lt v)
    · exact ih ch h

theorem hexEncode_not_mem (src : List Byte) (ch : Char) (h : ch ∉ hextable) :
    ch ∉ hexEncode src := fun hm => h (hexEncode_mem src ch hm)

/-! ## Hexadecimal rendering is injective -/

theorem hexDigit_inj : ∀ i, i < 16 → ∀ j, j < 16 → hexDigit i = hexDigit j → i = j := by
  decide

theorem byte_eq_of_nibbles (v w : Byte) (hhi : v.val >>> 4 = w.val >>> 4)
    (hlo : v.val &&& 0x0f = w.val &&& 0x0f) : v = w := by
  have e : ∀ x : Nat, x &&& 0x0f = x % 16 := fun x => Nat.and_pow_two_sub_one_eq_mod x 4
  rw [e, e] at hlo
  rw [Nat.shiftRight_eq_div_pow, Nat.shiftRight_eq_div_pow] at hhi
  apply Fin.ext
  omega

theorem hexEncode_inj : ∀ (a b : List Byte), hexEncode a = hexEncode b → a = b := by
  intro a
  induction a with
  | nil =>
    intro b h
    cases b with
    | nil => rfl
    | cons w rest => simp [hexEncode] at h
  | cons v rest ih =>
    intro b h
    cases b with
    | nil => simp [hexEncode] at h
    | cons w rest2 =>
      simp only [hexEncode, List.cons.injEq] at h
      obtain ⟨h1, h2, h3⟩ := h
      have e1 := hexDigit_inj _ (hi_nibble_lt v) _ (hi_nibble_lt w) h1
      have e2 := hexDigit_inj _ (lo_nibble_lt v) _ (lo_nibble_lt w) h2
      rw [byte_eq_of_nibbles v w e1 e2, ih rest2 h3]

theorem uuidString_inj (u v : UUID) (h : uuidString u = uuidString v) : u = v := by
  obtain ⟨a, ha⟩ := u
  obtain ⟨b, hb⟩ := v
  simp only [uuidString] at h
  have h := congrArg String.data h
  simp only at h
  have l1 : (hexEncode (a.take 4)).length = (hexEncode (b.take 4)).length := by
    simp [hexEncode_length, ha, hb]
  obtain ⟨e1, h⟩ := List.append_inj h l1
  simp only [List.cons.injEq, true_and] at h
  have l2 : (hexEncode ((a.drop 4).take 2)).length = (hexEncode ((b.drop 4).take 2)).length := by
    simp [hexEncode_length, ha, hb]
  obtain ⟨e2, h⟩ := List.append_inj h l2
  simp only [List.cons.injEq, true_and] at h
  have l3 : (hexEncode ((a.drop 6).take 2)).length = (hexEncode ((b.drop 6).take 2)).length := by
    simp [hexEncode_length, ha, hb]
  obtain ⟨e3, h⟩ := List.append_inj h l3
  simp only [List.cons.injEq, true_and] at h
  have l4 : (hexEncode ((a.drop 8).take 2)).length = (hexEncode ((b.drop 8).take 2)).length := by
    simp [hexEncode_length, ha, hb]
  obtain ⟨e4, e5⟩ := List.append_inj h l4
  simp only [List.cons.injEq, true_and] at e5
  have f1 := hexEncode_inj _ _ e1
  have f2 := hexEncode_inj _ _ e2
  have f3 := hexEncode_inj _ _ e3
  have f4 := hexEncode_inj _ _ e4
  have f5 := hexEncode_inj _ _ e5
  have split : ∀ l : List Byte, l = l.take 4 ++ ((l.drop 4).take 2 ++ ((l.drop 6).take 2 ++
      ((l.drop 8).take 2 ++ l.drop 10))) := by
    intro l
    have d1 : l.drop 6 = (l.drop 4).drop 2 := by rw [List.drop_drop]
    have d2 : l.drop 8 = (l.drop 6).drop 2 := by rw [List.drop_drop]
    have d3 : l.drop 10 = (l.drop 8).drop 2 := by rw [List.drop_drop]
    rw [d3, List.take_append_drop, d2, List.take_append_drop, d1, List.take_append_drop,
      List.take_append_drop]
  have : a = b := by rw [split a, split b, f1, f2, f3, f4, f5]
  subst this
  rfl

/-! ## The storage key, digit by digit -/

theorem hexDigit_eq_digitChar : ∀ i, i < 16 → hexDigit i = Nat.digitChar i := by decide

theorem hi_nibble_eq (v : Byte) : hexDigit (v.val >>> 4) = Nat.digitChar (v.val / 16) := by
  rw [hexDigit_eq_digitChar _ (hi_nibble_lt v), Nat.shiftRight_eq_div_pow]

theorem lo_nibble_eq (v : Byte) : hexDigit (v.val &&& 0x0f) = Nat.digitChar (v.val % 16) := by
  rw [hexDigit_eq_digitChar _ (lo_nibble_lt v)]
  exact congrArg Nat.digitChar (Nat.and_pow_two_sub_one_eq_mod v.val 4)

/-- Digits `2i` and `2i+1` of the encoding render the high and low nibble of byte `i`. -/
theorem hexEncode_getElem (src : List Byte) : ∀ i : Nat,
    (hexEncode src)[2 * i]? = (src[i]?).map (fun b => Nat.digitChar (b.val / 16)) ∧
    (hexEncode src)[2 * i + 1]? = (src[i]?).map (fun b => Nat.digitChar (b.val % 16)) := by
  induction src with
  | nil => intro i; simp [hexEncode]
  | cons v rest ih =>
    intro i
    cases i with
    | zero => simp [hexEncode, hi_nibble_eq, lo_nibble_eq]
    | succ j =>
      have e1 : 2 * (j + 1) = (2 * j + 1) + 1 := by omega
      rw [e1]
      simp only [hexEncode, List.getElem?_cons_succ]
      exact ih j

/-- The key determines the token. -/
theorem fileKey_inj (c : String) (t u : List Byte) (h : fileKey c t = fileKey c u) : t = u := by
  have hd := congrArg String.toList h
  simp only [fileKey, EncodeToString, String.toList, String.data_append] at hd
  have h1 := List.append_cancel_right hd
  have h2 := List.append_cancel_left h1
  exact hexEncode_inj _ _ h2

/-- Once the remuxed file is open, the object is put under `fileKey` of the class that
`getVideoAspectRatio` returned and the token drawn for the request. -/
theorem uploadFromTemp_putObject (env : UploadEnv) (video : Video)
    (parsedMediaType tempName ratio : String) (w : World)
    (hcopy : env.copy = .ok ())
    (hprobe : getVideoAspectRatio env.ffprobe tempName = (ratio, none))
    (hseek : env.seek = .ok ())
    (hremux : env.ffmpeg tempName (tempName ++ ".processing") = .succeeded)
    (hopen : env.osOpen (tempName ++ ".processing") = .ok ()) :
    ∃ rest, (uploadFromTemp env video parsedMediaType tempName w).trace = w.trace ++
      (.copy :: .ffprobe tempName :: .seek :: .ffmpeg tempName (tempName ++ ".processing") ::
        .osOpen (tempName ++ ".processing") ::
        .putObject env.s3Bucket (fileKey ratio env.randKey) parsedMediaType :: rest) := by
  unfold uploadFromTemp
  simp only [hcopy, hprobe, hseek, processVideoForFastStart, hremux, hopen]
  repeat' split
  all_goals exact ⟨_, by simp [World.log, World.create]; rfl⟩

/-- C9: for an aspect class `c` and a 32-byte token `t`, the key is `c`, one "/", the 64
lowercase hexadecimal digits of `t`, then ".mp4"; digits `2i` and `2i+1` are the high and
low nibble of byte `i` of `t`, so the key determines the token; its length is
`len(c) + 69`, it holds exactly one "/" and no comma; and this is the key under which
`handlerUploadVideo` puts the object. -/
theorem fileKey_shape (c : String) (t : List Byte)
    (hc : c = "landscape" ∨ c = "portrait" ∨ c = "other") (ht : t.length = 32) :
    fileKey c t = c ++ "/" ++ EncodeToString t ++ ".mp4" ∧
    (fileKey c t).toList = c.toList ++ '/' :: ((EncodeToString t).toList ++ ['.', 'm', 'p', '4']) ∧
    (EncodeToString t).length = 64 ∧
    (∀ ch ∈ (EncodeToString t).toList, ch ∈ "0123456789abcdef".toList) ∧
    (fileKey c t).length = c.length + 69 ∧
    (fileKey c t).toList.count '/' = 1 ∧
    ',' ∉ (fileKey c t).toList ∧
    (∀ i : Nat,
      (EncodeToString t).toList[2 * i]? = (t[i]?).map (fun b => Nat.digitChar (b.val / 16)) ∧
      (EncodeToString t).toList[2 * i + 1]?
        = (t[i]?).map (fun b => Nat.digitChar (b.val % 16))) ∧
    (∀ u : List Byte, fileKey c t = fileKey c u → t = u) ∧
    (∀ (env : UploadEnv) (video : Video) (parsedMediaType tempName : String) (w : World),
      env.randKey = t → env.copy = .ok () →
      getVideoAspectRatio env.ffprobe tempName = (c, none) → env.seek = .ok () →
      env.ffmpeg tempName (tempName ++ ".processing") = .succeeded →
      env.osOpen (tempName ++ ".processing") = .ok () →
      ∃ rest, (uploadFromTemp env video parsedMediaType tempName w).trace = w.trace ++
        (.copy :: .ffprobe tempName :: .seek ::
          .ffmpeg tempName (tempName ++ ".processing") ::
          .osOpen (tempName ++ ".processing") ::
          .putObject env.s3Bucket (fileKey c t) parsedMediaType :: rest)) := by
  have hlen : (hexEncode t).length = 64 := by rw [hexEncode_length, ht]
  have hslash : '/' ∉ hexEncode t := hexEncode_not_mem t '/' (by decide)
  have hcomma : ',' ∉ hexEncode t := hexEncode_not_mem t ',' (by decide)
  have hl : (fileKey c t).toList = c.toList ++ '/' :: (hexEncode t ++ ['.', 'm', 'p', '4']) := by
    simp [fileKey, EncodeToString, String.toList]
  refine ⟨rfl, ?_, ?_, ?_, ?_, ?_, ?_, ?_, ?_, ?_⟩
  · rw [hl]; rfl
  · simp [EncodeToString, String.length, hlen]
  · intro ch h
    exact hexEncode_mem t ch h
  · show (fileKey c t).toList.length = c.toList.length + 69
    rw [hl]
    simp only [List.length_append, List.length_cons, List.length_nil, hlen]
  · rw [hl]
    rcases hc with rfl | rfl | rfl <;>
      simp [List.count_append, List.count_cons, List.count_eq_zero_of_not_mem hslash]
  · rw [hl]
    rcases hc with rfl | rfl | rfl <;> simp [hcomma]
  · intro i
    exact hexEncode_getElem t i
  · intro u h
    exact fileKey_inj c t u h
  · intro env video parsedMediaType tempName w hr hcopy hprobe hseek hremux hopen
    subst hr
    exact uploadFromTemp_putObject env video parsedMediaType tempName c w hcopy hprobe hseek
      hremux hopen

/-- Instance of C9 for the class "landscape" and a token of 32 distinct bytes: the length
is 78 and the key spells out every byte of the token. -/
theorem fileKey_shape_witness :
    (fileKey "landscape" sampleToken).length = 78 ∧
    fileKey "landscape" sampleToken =
      "landscape/00112233445566778899aabbccddeeff102132435465768798a9bacbdcedfe0f.mp4" :=
  ⟨(fileKey_shape "landscape" sampleToken (Or.inl rfl) (by decide)).2.2.2.2.1, by decide⟩

/-! ## Access URL signing: claims C2, C5 -/

theorem splitComma_of_not_mem : ∀ (l : List Char), ',' ∉ l → splitComma l = [l] := by
  intro l
  induction l with
  | nil => intro _; rfl
  | cons c cs ih =>
    intro h
    simp only [List.mem_cons, not_or] at h
    have hc : c ≠ ',' := fun e => h.1 e.symm
    simp [splitComma, hc, ih h.2, consHead]

theorem splitComma_append : ∀ (b k : List Char), ',' ∉ b →
    splitComma (b ++ ',' :: k) = b :: splitComma k := by
  intro b
  induction b with
  | nil => intro k _; simp [splitComma]
  | cons c cs ih =>
    intro k h
    simp only [List.mem_cons, not_or] at h
    have hc : c ≠ ',' := fun e => h.1 e.symm
    simp [splitComma, hc, ih k h.2, consHead]

theorem containsComma_iff (s : String) : containsComma s = true ↔ ',' ∈ s.toList := by
  simp [containsComma]

/-- C2 (amended): a video whose locator is absent or contains no comma is returned
unchanged, without error and without any presign request. -/
theorem dbVideoToSignedVideo_passthrough (presignGetObject : Presigner) (video : Video)
    (h : video.VideoURL = none ∨ ∃ s, video.VideoURL = some s ∧ ',' ∉ s.toList) :
    _dbVideoToSignedVideo presignGetObject video = .ret video none [] := by
  rcases h with h | ⟨s, h, hs⟩
  · simp [_dbVideoToSignedVideo, h]
  · have hc : containsComma s = false := by
      rw [← Bool.not_eq_true, containsComma_iff]; exact hs
    simp [_dbVideoToSignedVideo, h, hc]

/-- Instance of C2 (amended) at an already-resolved absolute URL. -/
theorem dbVideoToSignedVideo_passthrough_witness :
    _dbVideoToSignedVideo (fun _ _ _ => .ok "https://signed.example/v")
      ⟨zeroUUID, zeroUUID, none, some "https://d111.cloudfront.net/other/ab.mp4"⟩
      = .ret ⟨zeroUUID, zeroUUID, none, some "https://d111.cloudfront.net/other/ab.mp4"⟩ none [] :=
  dbVideoToSignedVideo_passthrough _ _ (Or.inr ⟨_, rfl, by decide⟩)

/-- C2 as stated fails: "a,b,c" has two commas, so it is not compound, yet the code
requests a presigned URL for bucket "a" and key "b" and replaces the locator. -/
theorem dbVideoToSignedVideo_passthrough_counterexample :
    specCompound "a,b,c" = false ∧
    _dbVideoToSignedVideo (fun _ _ _ => .ok "https://signed.example/v")
      ⟨zeroUUID, zeroUUID, none, some "a,b,c"⟩
      = .ret ⟨zeroUUID, zeroUUID, none, some "https://signed.example/v"⟩ none [("a", "b")] := by
  constructor
  · decide
  · rfl

/-- C5: for a locator `bucket,key` (neither part containing a comma), when
`generatePresignedURL` fails with `err`, `_dbVideoToSignedVideo` returns `err` together
with the unmodified video, after exactly one presign request. -/
theorem dbVideoToSignedVideo_sign_error (presignGetObject : Presigner) (video : Video)
    (bucket key : String) (err : GoError) (hb : ',' ∉ bucket.toList) (hk : ',' ∉ key.toList)
    (hurl : video.VideoURL = some (bucket ++ "," ++ key))
    (hfail : (generatePresignedURL presignGetObject bucket key (100 * Second)).2 = some err) :
    _dbVideoToSignedVideo presignGetObject video = .ret video (some err) [(bucket, key)] := by
  have hl : (bucket ++ "," ++ key).toList = bucket.toList ++ ',' :: key.toList := by
    simp [String.toList]
  have hc : containsComma (bucket ++ "," ++ key) = true := by
    rw [containsComma_iff, hl]; simp
  have hs : Split (bucket ++ "," ++ key) = [bucket, key] := by
    unfold Split
    rw [hl, splitComma_append _ _ hb, splitComma_of_not_mem _ hk]
    rfl
  unfold _dbVideoToSignedVideo
  rw [hurl]
  simp only [hc, hs, Bool.not_true, Bool.false_eq_true, if_false]
  simp only [List.getElem?_cons_zero, List.getElem?_cons_succ]
  rcases hg : generatePresignedURL presignGetObject bucket key (100 * Second) with ⟨u, e⟩
  rw [hg] at hfail
  simp only at hfail
  subst hfail
  rfl

/-- Instance of C5 for the locator "tubely-bucket,other/ab.mp4" and a failing service. -/
theorem dbVideoToSignedVideo_sign_error_witness :
    _dbVideoToSignedVideo (fun _ _ _ => .error "service unavailable")
      ⟨zeroUUID, zeroUUID, none, some "tubely-bucket,other/ab.mp4"⟩
      = .ret ⟨zeroUUID, zeroUUID, none, some "tubely-bucket,other/ab.mp4"⟩
          (some "service unavailable") [("tubely-bucket", "other/ab.mp4")] :=
  dbVideoToSignedVideo_sign_error (fun _ _ _ => .error "service unavailable")
    ⟨zeroUUID, zeroUUID, none, some "tubely-bucket,other/ab.mp4"⟩
    "tubely-bucket" "other/ab.mp4" "service unavailable" (by decide) (by decide) rfl rfl

theorem splitComma_ne_nil (l : List Char) : splitComma l ≠ [] := by
  cases l with
  | nil => simp [splitComma]
  | cons c cs =>
    unfold splitComma
    split
    · simp
    · cases splitComma cs <;> simp [consHead]

theorem splitComma_two : ∀ (l : List Char), ',' ∈ l →
    ∃ a b rest, splitComma l = a :: b :: rest := by
  intro l
  induction l with
  | nil => intro h; simp at h
  | cons c cs ih =>
    intro h
    unfold splitComma
    by_cases hc : c = ','
    · rw [if_pos hc]
      cases hs : splitComma cs with
      | nil => exact absurd hs (splitComma_ne_nil cs)
      | cons b rest => exact ⟨[], b, rest, rfl⟩
    · rw [if_neg hc]
      have hm : ',' ∈ cs := by
        rcases List.mem_cons.mp h with e | e
        · exact absurd e.symm hc
        · exact e
      obtain ⟨a, b, rest, e⟩ := ih hm
      exact ⟨c :: a, b, rest, by rw [e]; rfl⟩

/-- The indexing `x[0], x[1]` after the comma test is always in range. -/
theorem dbVideoToSignedVideo_returns (presignGetObject : Presigner) (video : Video) :
    _dbVideoToSignedVideo presignGetObject video ≠ .panic := by
  unfold _dbVideoToSignedVideo
  split
  · simp
  · next url _ =>
    by_cases hc : containsComma url = true
    · obtain ⟨a, b, rest, e⟩ := splitComma_two url.toList ((containsComma_iff url).mp hc)
      simp only [hc, Bool.not_true, Bool.false_eq_true, if_false, Split, e, List.map_cons,
        List.getElem?_cons_zero, List.getElem?_cons_succ]
      split <;> simp
    · simp [hc]

/-! ## The upload handler: claims C3, C4, C6, C8 -/

theorem uuidString_bne (u v : UUID) (h : u ≠ v) : (uuidString u != uuidString v) = true := by
  simp only [bne_iff_ne, ne_eq]
  exact fun e => h (uuidString_inj u v e)

theorem uuidString_bne_self (u : UUID) : (uuidString u != uuidString u) = false := by
  simp

/-- C3: when the authenticated user is not the owner of the fetched record, the handler
answers 401 "Unauthorized user" right after the database read: the form file is not read,
no temporary file is created, neither external tool runs, and no file appears. -/
theorem handlerUploadVideo_owner_mismatch (env : UploadEnv) (w : World) (videoID userID : UUID)
    (token : String) (video : Video)
    (hid : env.uuidParse env.videoIDString = .ok videoID)
    (htoken : env.getBearerToken = .ok token)
    (hjwt : env.validateJWT token = .ok userID)
    (hget : env.getVideo videoID = .ok video)
    (howner : userID ≠ video.UserID) :
    (handlerUploadVideo env w).trace
      = w.trace ++ [.getVideo videoID, .respondWithError 401 "Unauthorized user"] ∧
    (handlerUploadVideo env w).files = w.files := by
  unfold handlerUploadVideo
  simp [hid, htoken, hjwt, hget, uuidString_bne _ _ howner, World.log]

/-- Instance of C3: a stranger's request on the sample record. -/
theorem handlerUploadVideo_owner_mismatch_witness :
    (handlerUploadVideo strangerEnv World.empty).trace
      = [.getVideo zeroUUID, .respondWithError 401 "Unauthorized user"] :=
  (handlerUploadVideo_owner_mismatch strangerEnv World.empty zeroUUID oneUUID "token" sampleVideo
    rfl rfl rfl rfl (by decide)).1

theorem processVideoForFastStart_trace (ffmpeg : String → String → RemuxOutcome)
    (filePath : String) (w : World) :
    (processVideoForFastStart ffmpeg filePath w).2.trace
      = w.trace ++ [.ffmpeg filePath (filePath ++ ".processing")] := by
  unfold processVideoForFastStart
  simp only []
  split
  · split <;> simp [World.log, World.create]
  · simp [World.log, World.create]

/-- The body under the deferred clean-up only ever appends to the trace. -/
theorem uploadFromTemp_trace (env : UploadEnv) (video : Video)
    (parsedMediaType tempName : String) (w : World) :
    ∃ rest, (uploadFromTemp env video parsedMediaType tempName w).trace = w.trace ++ rest := by
  have hp := processVideoForFastStart_trace env.ffmpeg tempName
    (((w.log .copy).log (.ffprobe tempName)).log .seek)
  unfold uploadFromTemp
  split
  · exact ⟨_, by simp [World.log]; rfl⟩
  split
  · exact ⟨_, by simp [World.log]; rfl⟩
  split
  · exact ⟨_, by simp [World.log]; rfl⟩
  split
  · next h => rw [h] at hp; exact ⟨_, by simp [World.log] at hp ⊢; rw [hp]; simp; rfl⟩
  next h =>
  rw [h] at hp
  simp only [World.log] at hp
  split
  · exact ⟨_, by simp [World.log, hp]; rfl⟩
  split
  · exact ⟨_, by simp [World.log, hp]; rfl⟩
  split
  · exact ⟨_, by simp [World.log, hp]; rfl⟩
  · exact ⟨_, by simp [World.log, hp]; rfl⟩

/-- C8 (amended): once the owner's form file is read, a declared Content-Type that fails
to parse, or whose base type is not "video/mp4", is answered with a 400 failure before
`os.CreateTemp` is called and before ffprobe or ffmpeg runs; the only files that exist
then beyond the initial ones are those the multipart parser of `r.FormFile` wrote. A base
type "video/mp4" with any parameters passes, and the handler goes on to `os.CreateTemp`. -/
theorem handlerUploadVideo_media_type (env : UploadEnv) (w : World) (videoID userID : UUID)
    (token mediaType : String) (video : Video)
    (hid : env.uuidParse env.videoIDString = .ok videoID)
    (htoken : env.getBearerToken = .ok token)
    (hjwt : env.validateJWT token = .ok userID)
    (hget : env.getVideo videoID = .ok video)
    (howner : userID = video.UserID)
    (hform : (env.formFile "video").result = .ok mediaType) :
    ((∃ err, env.parseMediaType mediaType = .error err) →
      (handlerUploadVideo env w).trace = w.trace ++ [.getVideo videoID, .formFile "video",
        .respondWithError 400 "Couldn't parse the media type", .fileClose] ∧
      (handlerUploadVideo env w).files = w.files ++ (env.formFile "video").spilled) ∧
    (∀ base params, env.parseMediaType mediaType = .ok (base, params) → base ≠ "video/mp4" →
      (handlerUploadVideo env w).trace = w.trace ++ [.getVideo videoID, .formFile "video",
        .respondWithError 400 "Invalid file type", .fileClose] ∧
      (handlerUploadVideo env w).files = w.files ++ (env.formFile "video").spilled) ∧
    (∀ params, env.parseMediaType mediaType = .ok ("video/mp4", params) →
      ∃ rest, (handlerUploadVideo env w).trace = w.trace ++ (.getVideo videoID ::
        .formFile "video" :: .createTemp "" "tubely-upload.mp4" :: rest)) := by
  subst howner
  refine ⟨?_, ?_, ?_⟩
  · rintro ⟨err, hp⟩
    unfold handlerUploadVideo
    simp [hid, htoken, hjwt, hget, hform, uploadFromForm, hp, World.log, World.spill]
  · intro base params hp hne
    unfold handlerUploadVideo
    simp [hid, htoken, hjwt, hget, hform, uploadFromForm, hp, hne, World.log, World.spill]
  · intro params hp
    unfold handlerUploadVideo
    simp only [hid, htoken, hjwt, hget, hform, uploadFromForm, hp, uuidString_bne_self]
    cases hct : env.createTemp "" "tubely-upload.mp4" with
    | error e => exact ⟨_, by simp [World.log, World.spill]; rfl⟩
    | ok tempName =>
      obtain ⟨rest, hr⟩ := uploadFromTemp_trace env video "video/mp4" tempName
        ((((w.log (.getVideo videoID)).log (.formFile "video")).spill
          (env.formFile "video").spilled).log
          (.createTemp "" "tubely-upload.mp4") |>.create tempName)
      refine ⟨rest ++ [.tempClose, .remove tempName, .fileClose], ?_⟩
      simp [World.log, World.remove, World.create, World.spill] at hr ⊢
      rw [hr]
      simp

/-- Instance of C8 (amended): the sample request declaring "video/avi" with a part over
32 MiB. -/
theorem handlerUploadVideo_media_type_witness :
    (handlerUploadVideo largeAviEnv World.empty).trace = [.getVideo zeroUUID,
      .formFile "video", .respondWithError 400 "Invalid file type", .fileClose] :=
  ((handlerUploadVideo_media_type largeAviEnv World.empty zeroUUID zeroUUID "token" "video/avi"
    sampleVideo rfl rfl rfl rfl rfl rfl).2.1 "video/avi" [] rfl (by decide)).1

/-- C8 as stated fails: for a "video/avi" part over 32 MiB the handler answers 400
"Invalid file type", yet a temporary file, written by the multipart parser inside
`r.FormFile`, has been created before that answer and is present at return. -/
theorem handlerUploadVideo_media_type_counterexample :
    (handlerUploadVideo largeAviEnv World.empty).trace = [.getVideo zeroUUID,
      .formFile "video", .respondWithError 400 "Invalid file type", .fileClose] ∧
    World.empty.files = [] ∧
    (handlerUploadVideo largeAviEnv World.empty).files = ["/tmp/multipart-2871"] := by
  decide

/-- C6: a probe report without streams makes `getVideoAspectRatio` return an error and
the empty string; the handler then answers 500 and returns: ffmpeg is not run, nothing is
put into the object store and the record is not updated. -/
theorem handlerUploadVideo_zero_streams (env : UploadEnv) (w : World) (videoID userID : UUID)
    (token mediaType tempName : String) (params : List (String × String)) (video : Video)
    (hid : env.uuidParse env.videoIDString = .ok videoID)
    (htoken : env.getBearerToken = .ok token)
    (hjwt : env.validateJWT token = .ok userID)
    (hget : env.getVideo videoID = .ok video)
    (howner : userID = video.UserID)
    (hform : (env.formFile "video").result = .ok mediaType)
    (hparse : env.parseMediaType mediaType = .ok ("video/mp4", params))
    (htemp : env.createTemp "" "tubely-upload.mp4" = .ok tempName)
    (hcopy : env.copy = .ok ())
    (hprobe : env.ffprobe tempName = .report ⟨[]⟩) :
    getVideoAspectRatio env.ffprobe tempName
      = ("", some "Couldn't get the witdth and height") ∧
    (handlerUploadVideo env w).trace = w.trace ++ [.getVideo videoID, .formFile "video",
      .createTemp "" "tubely-upload.mp4", .copy, .ffprobe tempName,
      .respondWithError 500 "Couldn't get the file aspect",
      .tempClose, .remove tempName, .fileClose] := by
  subst howner
  have hg : getVideoAspectRatio env.ffprobe tempName
      = ("", some "Couldn't get the witdth and height") := by
    simp [getVideoAspectRatio, hprobe]
  refine ⟨hg, ?_⟩
  unfold handlerUploadVideo
  simp [hid, htoken, hjwt, hget, hform, uploadFromForm, hparse, htemp, uploadFromTemp, hcopy,
    hg, World.log, World.remove, World.create, World.spill]

/-- Instance of C6: the sample request on an upload without streams. -/
theorem handlerUploadVideo_zero_streams_witness :
    (handlerUploadVideo noStreamEnv World.empty).trace = [.getVideo zeroUUID, .formFile "video",
      .createTemp "" "tubely-upload.mp4", .copy, .ffprobe "/tmp/tubely-upload.mp4123",
      .respondWithError 500 "Couldn't get the file aspect",
      .tempClose, .remove "/tmp/tubely-upload.mp4123", .fileClose] :=
  (handlerUploadVideo_zero_streams noStreamEnv World.empty zeroUUID zeroUUID "token"
    "video/mp4; codecs=avc1" "/tmp/tubely-upload.mp4123" [("codecs", "avc1")] sampleVideo
    rfl rfl rfl rfl rfl rfl rfl rfl rfl rfl).2

set_option maxRecDepth 100000 in
/-- C4 fails on the code: after a fully successful upload the received temporary file has
been removed, but the remuxed sibling `<temp path>.processing` is still present and no
`os.Remove` was issued for it. -/
theorem handlerUploadVideo_leaves_processed_file :
    (handlerUploadVideo sampleEnv World.empty).files = ["/tmp/tubely-upload.mp4123.processing"] ∧
    Event.remove "/tmp/tubely-upload.mp4123" ∈ (handlerUploadVideo sampleEnv World.empty).trace ∧
    Event.remove "/tmp/tubely-upload.mp4123.processing"
      ∉ (handlerUploadVideo sampleEnv World.empty).trace ∧
    (handlerUploadVideo sampleEnv World.empty).trace.any Event.isFailure = false := by
  decide

/-! ## Temporary files at return -/

theorem append_processing_ne (s : String) : s ++ ".processing" ≠ s := by
  intro h
  have hl := congrArg String.length h
  simp [String.length_append] at hl
  have : (".processing" : String).length = 11 := by decide
  omega

/-- The received upload file is gone when the handler returns, on every exit path. -/
theorem handlerUploadVideo_removes_upload (env : UploadEnv) (w : World) (tempName : String)
    (htemp : env.createTemp "" "tubely-upload.mp4" = .ok tempName)
    (hfresh : tempName ∉ w.files) (hspill : tempName ∉ (env.formFile "video").spilled) :
    tempName ∉ (handlerUploadVideo env w).files := by
  unfold handlerUploadVideo uploadFromForm
  rw [htemp]
  repeat' split
  all_goals simp_all [World.log, World.remove, World.spill, List.mem_filter]

/-- Once ffmpeg has succeeded, its output file is still present when the handler returns,
whatever the outcome of the later stages. -/
theorem handlerUploadVideo_keeps_processed (env : UploadEnv) (w : World)
    (videoID userID : UUID) (token mediaType tempName ratio : String)
    (params : List (String × String)) (video : Video)
    (hid : env.uuidParse env.videoIDString = .ok videoID)
    (htoken : env.getBearerToken = .ok token)
    (hjwt : env.validateJWT token = .ok userID)
    (hget : env.getVideo videoID = .ok video)
    (howner : userID = video.UserID)
    (hform : (env.formFile "video").result = .ok mediaType)
    (hparse : env.parseMediaType mediaType = .ok ("video/mp4", params))
    (htemp : env.createTemp "" "tubely-upload.mp4" = .ok tempName)
    (hcopy : env.copy = .ok ())
    (hprobe : getVideoAspectRatio env.ffprobe tempName = (ratio, none))
    (hseek : env.seek = .ok ())
    (hremux : env.ffmpeg tempName (tempName ++ ".processing") = .succeeded) :
    tempName ++ ".processing" ∈ (handlerUploadVideo env w).files := by
  subst howner
  have hfiles : ∀ w0 : World, (uploadFromTemp env video "video/mp4" tempName w0).files
      = w0.files ++ [tempName ++ ".processing"] := by
    intro w0
    unfold uploadFromTemp
    simp only [hcopy, hprobe, hseek, processVideoForFastStart, hremux]
    repeat' split
    all_goals simp [World.log, World.create]
  unfold handlerUploadVideo
  simp only [hid, htoken, hjwt, hget, hform, uploadFromForm, hparse, htemp,
    uuidString_bne_self]
  simp [World.log, World.remove, World.create, World.spill, hfiles, List.mem_filter,
    append_processing_ne]

end Tubely
